import Mathlib

/-!
Verification of the professor identity-resolution and enrichment engine of
`data-app/src/rmp/rmp.py` (class `RMP`), via a shallow embedding.

Modelling conventions:
* Python strings are Lean `String`s / `List Char`; the embedding covers the
  ASCII behaviour of `str.lower`, `str.strip`, `str.split`, `str.isdigit`
  and of the regexes in `_canonicalize_name` (the repository's data is ASCII).
* Python floats are embedded as `ℚ` (exact arithmetic at the comparison
  thresholds used by the code).
* `time.time()` timestamps are an explicit `ℚ` parameter.
* The JSON cache file is a record of three association lists (Python dicts,
  insertion-ordered); saving/loading to disk is the identity in the model.
* `rapidfuzz` is assumed importable (`FUZZY_MATCHING_AVAILABLE = True`), as in
  the deployed configuration the spec describes.  `fuzz.token_sort_ratio` is
  embedded exactly: sort whitespace tokens, join with single spaces, then
  normalized InDel similarity `100 * 2*lcs(a,b) / (|a|+|b|)`.
* Database state (`Professor`, `Distribution` tables behind `Session`) is a
  pair of lists; queries/updates/deletes are the evident list operations.
-/

/-! ## Character classes (ASCII, as used by Python `str` methods and `re`) -/

/-- Python whitespace for `str.split`/`str.strip` and regex `\s`:
space, tab, LF, CR, VT, FF. -/
def isPySpace (c : Char) : Bool :=
  decide (c.toNat = 32 ∨ c.toNat = 9 ∨ c.toNat = 10 ∨ c.toNat = 13 ∨
    c.toNat = 11 ∨ c.toNat = 12)

/-- Regex `\w` (ASCII): letters, digits, underscore. -/
def isWordChar (c : Char) : Bool :=
  decide ((48 ≤ c.toNat ∧ c.toNat ≤ 57) ∨ (65 ≤ c.toNat ∧ c.toNat ≤ 90) ∨
    (97 ≤ c.toNat ∧ c.toNat ≤ 122) ∨ c.toNat = 95)

/-- ASCII decimal digit (Python `str.isdigit` on ASCII data). -/
def isAsciiDigit (c : Char) : Bool :=
  decide (48 ≤ c.toNat ∧ c.toNat ≤ 57)

/-- ASCII letter. -/
def isAsciiAlpha (c : Char) : Bool :=
  decide ((65 ≤ c.toNat ∧ c.toNat ≤ 90) ∨ (97 ≤ c.toNat ∧ c.toNat ≤ 122))

/-- Python `str.lower` on one ASCII character. -/
def lowerChar (c : Char) : Char :=
  if 65 ≤ c.toNat ∧ c.toNat ≤ 90 then Char.ofNat (c.toNat + 32) else c

/-! ## Python string primitives -/

/-- Python `str.strip()` on a character list. -/
def pyStripL (l : List Char) : List Char :=
  ((l.dropWhile isPySpace).reverse.dropWhile isPySpace).reverse

/-- Python `str.strip()`. -/
def pyStrip (s : String) : String :=
  String.mk (pyStripL s.toList)

/-- Python `str.lower()`. -/
def pyLower (s : String) : String :=
  String.mk (s.toList.map lowerChar)

/-- Helper for `splitWs`: `acc` is the current word reversed. -/
def splitWsAux : List Char → List Char → List (List Char)
  | [], acc => if acc.isEmpty then [] else [acc.reverse]
  | c :: cs, acc =>
    if isPySpace c then
      if acc.isEmpty then splitWsAux cs [] else acc.reverse :: splitWsAux cs []
    else splitWsAux cs (c :: acc)

/-- Python `str.split()` with no argument: maximal runs of non-whitespace. -/
def splitWs (l : List Char) : List (List Char) :=
  splitWsAux l []

/-- Python `" ".join(words)`. -/
def joinSp : List (List Char) → List Char
  | [] => []
  | [w] => w
  | w :: ws => w ++ (' ' :: joinSp ws)

/-- Python `" ".join(s.split())` (also `" ".join(s.strip().split())`:
the strip is absorbed by the split). -/
def normWS (l : List Char) : List Char :=
  joinSp (splitWs l)

/-- Python `s.split()` at the `String` level. -/
def splitWsStr (s : String) : List String :=
  (splitWs s.toList).map String.mk

/-- Python `str.isdigit()` on ASCII data: nonempty and all decimal digits. -/
def isDigitString (s : String) : Bool :=
  !s.toList.isEmpty && s.toList.all isAsciiDigit

/-! ## The `_canonicalize_name` regexes

`re.sub(r'\b(dr|prof|professor)\.?\s*', '', name, flags=re.IGNORECASE)` and
`re.sub(r'\s+(jr|sr|ii|iii|iv)\.?$', '', name, flags=re.IGNORECASE)`,
embedded with Python `re` semantics: left-to-right scan over the original
string, non-overlapping matches, leftmost-first alternation. -/

/-- Case-insensitively consume the pattern `p` (given lowercase) from the
front of `l`; return the rest on success. -/
def tryCI : List Char → List Char → Option (List Char)
  | [], l => some l
  | _ :: _, [] => none
  | p :: ps, c :: cs => if lowerChar c = p then tryCI ps cs else none

/-- The alternation `(dr|prof|professor)`, leftmost-first as in Python `re`
(so `professor` is shadowed by `prof` and can never be the branch taken). -/
def titleTry (l : List Char) : Option (List Char) :=
  match tryCI ['d', 'r'] l with
  | some r => some r
  | none =>
    match tryCI ['p', 'r', 'o', 'f'] l with
    | some r => some r
    | none => tryCI ['p', 'r', 'o', 'f', 'e', 's', 's', 'o', 'r'] l

/-- One sweep of `re.sub(r'\b(dr|prof|professor)\.?\s*', '', ·)`.
`atB` records whether the previous character of the original string is a
non-word character (or the start), i.e. whether `\b` holds here for a match
that begins with a word character.  Every step consumes at least one
character, so `fuel = length` suffices; the fuel-0 branch is unreachable
from `titleSub`. -/
def titleSubFuel : Nat → List Char → Bool → List Char
  | 0, l, _ => l
  | _ + 1, [], _ => []
  | fuel + 1, c :: cs, atB =>
    if atB then
      match titleTry (c :: cs) with
      | some r0 =>
        let dotted : Bool := r0.head? == some '.'
        let r1 := if dotted then r0.tail else r0
        let r2 := r1.dropWhile isPySpace
        titleSubFuel fuel r2 (dotted || !(r1.length == r2.length))
      | none => c :: titleSubFuel fuel cs (!(isWordChar c))
    else c :: titleSubFuel fuel cs (!(isWordChar c))

/-- `re.sub(r'\b(dr|prof|professor)\.?\s*', '', name, flags=re.IGNORECASE)`. -/
def titleSub (l : List Char) : List Char :=
  titleSubFuel l.length l true

/-- The suffix alternation `(jr|sr|ii|iii|iv)`. -/
def suffixWords : List (List Char) :=
  [['j', 'r'], ['s', 'r'], ['i', 'i'], ['i', 'i', 'i'], ['i', 'v']]

/-- Drop trailing Python whitespace. -/
def dropTrailingWs (l : List Char) : List Char :=
  (l.reverse.dropWhile isPySpace).reverse

/-- Does lowercased `low` end in the word `w` with at least one whitespace
character immediately before it?  (That is the only way
`\s+(w)\.?$` can match, given `$` anchoring.) -/
def suffixTryWord (low : List Char) (w : List Char) : Bool :=
  w.isSuffixOf low && decide (w.length < low.length) &&
    (match low.get? (low.length - w.length - 1) with
     | some c => isPySpace c
     | none => false)

/-- `re.sub(r'\s+(jr|sr|ii|iii|iv)\.?$', '', name, flags=re.IGNORECASE)`.
Anchored at `$`, so there is at most one match: an optional final `'.'`,
preceded by a suffix word, preceded by a whitespace run (all removed,
the `\s+` being greedy with leftmost match start). -/
def suffixSub (l : List Char) : List Char :=
  let dotted : Bool := l.getLast? == some '.'
  let core := if dotted then l.dropLast else l
  let low := core.map lowerChar
  match suffixWords.find? (fun w => suffixTryWord low w) with
  | some w => dropTrailingWs (core.take (core.length - w.length))
  | none => l

/-- `RMP._canonicalize_name`: whitespace-normalize, strip titles, strip
generational suffixes, re-normalize whitespace, lowercase. -/
def canonicalizeName (name : String) : String :=
  if name = "" then ""
  else
    let n1 := normWS name.toList
    let n2 := titleSub n1
    let n3 := suffixSub n2
    let n4 := normWS n3
    String.mk (n4.map lowerChar)

/-! ## Nickname variants (`RMP._nickname_map`, `RMP._get_name_variants`) -/

/-- The static alias table `RMP._nickname_map`, in source order. -/
def nicknameMap : List (String × List String) :=
  [("robert", ["rob", "bob", "bobby"]),
   ("william", ["will", "bill", "billy"]),
   ("james", ["jim", "jimmy"]),
   ("michael", ["mike", "mick"]),
   ("david", ["dave", "davy"]),
   ("richard", ["rick", "dick"]),
   ("thomas", ["tom", "tommy"]),
   ("charles", ["charlie", "chuck"]),
   ("christopher", ["chris"]),
   ("daniel", ["dan", "danny"]),
   ("matthew", ["matt"]),
   ("anthony", ["tony"]),
   ("joseph", ["joe", "joey"]),
   ("andrew", ["andy", "drew"]),
   ("elizabeth", ["liz", "beth", "betty"]),
   ("margaret", ["meg", "maggie"]),
   ("patricia", ["pat", "patty"]),
   ("jennifer", ["jen", "jenny"]),
   ("susan", ["sue", "suzy"]),
   ("salvador", ["sal"])]

/-- `RMP._get_name_variants`.  The Python code ends with `list(set(variants))`
whose only use downstream is a membership test, so the model keeps the
(possibly duplicated) list; membership is unaffected by deduplication. -/
def nameVariants (firstName : String) : List String :=
  let canonicalFirst := canonicalizeName firstName
  let variants := [canonicalFirst]
  let variants :=
    match nicknameMap.lookup canonicalFirst with
    | some nicks => variants ++ nicks
    | none => variants
  nicknameMap.foldl
    (fun vs entry =>
      if canonicalFirst ∈ entry.2 then vs ++ [entry.1] ++ entry.2 else vs)
    variants

/-! ## `fuzz.token_sort_ratio` (rapidfuzz) -/

/-- Lexicographic (code-point) order on character lists, as Python compares
strings. -/
def charListLt : List Char → List Char → Bool
  | [], [] => false
  | [], _ :: _ => true
  | _ :: _, [] => false
  | a :: as, b :: bs =>
    if a < b then true else if b < a then false else charListLt as bs

/-- Stable insertion for ascending sort (equal keys keep encounter order,
like Python `sorted`). -/
def insertTok (x : List Char) : List (List Char) → List (List Char)
  | [] => [x]
  | y :: ys => if charListLt x y then x :: y :: ys else y :: insertTok x ys

/-- Python `sorted` on a token list. -/
def sortToks (l : List (List Char)) : List (List Char) :=
  l.foldl (fun acc x => insertTok x acc) []

/-- One row-update of the standard longest-common-subsequence dynamic
program: `prev` is the previous row from column `j` on (`prev.head = prev[j]`
is the diagonal), `left` is the already-computed `new[j]`. -/
def lcsStep (x : Char) : List Char → List Nat → Nat → List Nat
  | [], _, _ => []
  | c :: cs, pj :: rest, left =>
    let pj1 := rest.headD 0
    let v := if x = c then pj + 1 else max left pj1
    v :: lcsStep x cs rest v
  | _ :: _, [], _ => []

/-- Length of a longest common subsequence, by dynamic programming. -/
def lcsLen (a b : List Char) : Nat :=
  (a.foldl (fun prev x => 0 :: lcsStep x b prev 0)
    (List.replicate (b.length + 1) 0)).getLastD 0

/-- rapidfuzz `fuzz.ratio(a, b) / 100`: normalized InDel similarity
`(|a|+|b| - dist)/(|a|+|b|)` with `dist = |a|+|b| - 2*lcs`, i.e.
`2*lcs/(|a|+|b|)`; `1` for two empty strings by rapidfuzz convention. -/
def simRatio (a b : List Char) : ℚ :=
  if a.length + b.length = 0 then 1
  else ((2 * lcsLen a b : ℕ) : ℚ) / ((a.length + b.length : ℕ) : ℚ)

/-- rapidfuzz `fuzz.token_sort_ratio(a, b) / 100` (the code always divides
the 0–100 score by 100.0 at the call sites): sort the whitespace tokens of
each side, join with single spaces, and compare. -/
def tokenSortRatio (a b : String) : ℚ :=
  simRatio (joinSp (sortToks (splitWs a.toList))) (joinSp (sortToks (splitWs b.toList)))

/-! ## Candidate records (GraphQL `teachers.edges` entries)

Each search result is `{"node": {...}}`.  The unused GraphQL `id` field is
omitted; numeric rating fields are `Option ℚ` (JSON null = `none`);
`legacyId` is kept as its decimal string form (the code only ever uses
`str(legacy_id)`). -/

structure CandNode where
  avgRating : Option ℚ
  avgDifficulty : Option ℚ
  wouldTakeAgainPercent : Option ℚ
  legacyId : Option String
  firstName : String
  lastName : String
  schoolId : String
deriving DecidableEq

structure Cand where
  node : CandNode
deriving DecidableEq

/-- Python `" ".join(parts)` on strings. -/
def joinSpStr (parts : List String) : String :=
  String.mk (joinSp (parts.map String.toList))

/-- `RMP._fuzzy_match_candidates` (with `FUZZY_MATCHING_AVAILABLE = True`):
score every candidate against the canonicalized target, keep scores ≥ 0.85,
stable-sort descending by score. -/
def insertCandDesc (x : Cand × ℚ) : List (Cand × ℚ) → List (Cand × ℚ)
  | [] => [x]
  | y :: ys => if y.2 < x.2 then x :: y :: ys else y :: insertCandDesc x ys

def fuzzyMatchCandidates (targetName : String) (cands : List Cand) : List Cand :=
  if cands.isEmpty then cands
  else
    let targetCanonical := canonicalizeName targetName
    let scored := cands.filterMap (fun c =>
      let candidateCanonical :=
        canonicalizeName (c.node.firstName ++ " " ++ c.node.lastName)
      let score := tokenSortRatio targetCanonical candidateCanonical
      if (17 / 20 : ℚ) ≤ score then some (c, score) else none)
    ((scored.foldl (fun acc x => insertCandDesc x acc) []).map (·.1))

/-- `RMP._enhanced_match_candidates`: nickname tier, then (only when it is
empty) the fuzzy tier trimmed to its single best-scoring candidate. -/
def enhancedMatchCandidates (targetName : String) (cands : List Cand) : List Cand :=
  if cands.isEmpty then []
  else
    let nameParts := splitWsStr targetName
    if nameParts.length < 2 then []
    else
      let targetFirst := nameParts.headD ""
      let targetLast := joinSpStr nameParts.tail
      let firstVariants := nameVariants targetFirst
      let matched := cands.filter (fun c =>
        decide (canonicalizeName c.node.firstName ∈ firstVariants) &&
        decide (canonicalizeName c.node.lastName = canonicalizeName targetLast))
      if matched.isEmpty then
        match fuzzyMatchCandidates targetName cands with
        | [] => []
        | f :: _ => [f]
      else matched

/-- Result of `RMP._validate_match_quality`. -/
structure QualityResult where
  confidence : ℚ
  issues : List String
  matchType : String
  recommendedAction : String
deriving DecidableEq

/-- `RMP._validate_match_quality`. -/
def validateMatchQuality (targetName candidateName : String) (score : ℚ) :
    QualityResult :=
  let targetCanonical := canonicalizeName targetName
  let candidateCanonical := canonicalizeName candidateName
  if targetCanonical = candidateCanonical then
    ⟨1, [], "exact", "accept"⟩
  else
    let targetWords := splitWs targetCanonical.toList
    let candidateWords := splitWs candidateCanonical.toList
    let structDiff : Bool := targetWords.length ≠ candidateWords.length
    let lastDiff : Bool :=
      2 ≤ targetWords.length && 2 ≤ candidateWords.length &&
        targetWords.getLast? ≠ candidateWords.getLast?
    let lowScore : Bool := score < 17 / 20
    let conf1 := if structDiff then score * (9 / 10) else score
    let conf2 := if lastDiff then conf1 * (7 / 10) else conf1
    let conf3 := if lowScore then conf2 * (4 / 5) else conf2
    let issues :=
      (if structDiff then ["different_name_structure"] else []) ++
      (if lastDiff then ["different_last_name"] else []) ++
      (if lowScore then ["low_similarity_score"] else [])
    let recommendation :=
      if 9 / 10 ≤ conf3 then "accept"
      else if 3 / 4 ≤ conf3 then "review"
      else "reject"
    ⟨conf3, issues, if score < 1 then "fuzzy" else "nickname", recommendation⟩

/-- The exact-match filter of `RMP.update_prof_by_name`:
`str.strip(firstName + " " + lastName) == prof.name`, byte for byte. -/
def exactFilter (profName : String) (cands : List Cand) : List Cand :=
  cands.filter (fun c =>
    pyStrip (c.node.firstName ++ " " ++ c.node.lastName) == profName)

/-- The match-resolution part of `RMP.update_prof_by_name` (lines 416–462):
from the raw search results to the unique accepted candidate, or `none`
(no match / quality review / quality reject / ambiguity).
`FUZZY_MATCHING_AVAILABLE` is `True` in the model. -/
def resolveProf (profName : String) (cands : List Cand) : Option Cand :=
  let exact := exactFilter profName cands
  let profMatches :=
    if !exact.isEmpty then exact
    else
      match enhancedMatchCandidates profName cands with
      | [] => []
      | best :: rest =>
        let candidateName := best.node.firstName ++ " " ++ best.node.lastName
        let fuzzyScore :=
          tokenSortRatio (canonicalizeName profName) (canonicalizeName candidateName)
        let quality := validateMatchQuality profName candidateName fuzzyScore
        if quality.recommendedAction = "accept" then best :: rest else []
  match profMatches with
  | [m] => some m
  | _ => none

/-! ## `RMP._validate_and_extract_rmp_data` -/

def rmpBaseUrl : String := "https://www.ratemyprofessors.com"

/-- The validated update payload (keys `Professor.RMP_*`). -/
structure RmpData where
  RMP_score : ℚ
  RMP_diff : ℚ
  RMP_would_take_again : Option ℚ
  RMP_link : String
deriving DecidableEq

/-- `RMP._validate_and_extract_rmp_data`.  `float()` conversion on the
numeric JSON values is the identity in the ℚ model (the
`ValueError`/`TypeError` branches are unreachable for numeric data). -/
def validateAndExtractRmpData (node : CandNode) : Option RmpData :=
  match node.legacyId with
  | none => none
  | some legacyId =>
    if !isDigitString legacyId then none
    else
      match (match node.avgRating with
             | none => some (0 : ℚ)
             | some r => if 0 ≤ r ∧ r ≤ 5 then some r else none) with
      | none => none
      | some avgRating =>
        match (match node.avgDifficulty with
               | none => some (0 : ℚ)
               | some d => if 0 ≤ d ∧ d ≤ 5 then some d else none) with
        | none => none
        | some avgDifficulty =>
          let wouldTakeAgainValue : Option ℚ :=
            match node.wouldTakeAgainPercent with
            | none => none
            | some w => if -1 ≤ w ∧ w ≤ 100 then some w else none
          some ⟨avgRating, avgDifficulty, wouldTakeAgainValue,
            rmpBaseUrl ++ "/professor/" ++ legacyId⟩

/-! ## Professor rows and the database side of `update_prof_by_name` -/

/-- A `Professor` row (modelling the columns the RMP engine touches). -/
structure DBProf where
  id : ℕ
  name : String
  RMP_score : Option ℚ := none
  RMP_diff : Option ℚ := none
  RMP_would_take_again : Option ℚ := none
  RMP_link : Option String := none
deriving DecidableEq

/-- `RMP.update_prof_by_name` for one professor: the search results for
`prof.name` are the `cands` argument (the network/caching layer that
produced them is external to this function); the table update
`session.query(Professor).filter(Professor.id == prof.id).update(rmp_data)`
is a map over the rows. -/
def updateProfByName (prof : DBProf) (cands : List Cand) (profs : List DBProf) :
    List DBProf :=
  match resolveProf prof.name cands with
  | none => profs
  | some m =>
    match validateAndExtractRmpData m.node with
    | none => profs
    | some d =>
      profs.map (fun p =>
        if p.id = prof.id then
          { p with RMP_score := some d.RMP_score, RMP_diff := some d.RMP_diff,
                   RMP_would_take_again := d.RMP_would_take_again,
                   RMP_link := some d.RMP_link }
        else p)

/-- Sample candidate with no rating data (used in concrete instances). -/
def mkCand (f l : String) : Cand :=
  ⟨⟨none, none, none, some "12345", f, l, "U2Nob29sLTM2MQ=="⟩⟩

/-! ## The three-tier result cache (`rmp_cache.json`)

Python dicts become insertion-ordered association lists; `_save_cache` /
`_load_cache` are the identity in the model (the file round-trips). -/

def gtSchoolId : String := "U2Nob29sLTM2MQ=="

structure PosEntry where
  data : List Cand
  timestamp : ℚ
deriving DecidableEq

structure NegEntry where
  timestamp : ℚ
deriving DecidableEq

structure ManEntry where
  data : List Cand
  timestamp : ℚ
  source : String
deriving DecidableEq

structure RmpCache where
  positive : List (String × PosEntry)
  negative : List (String × NegEntry)
  manual : List (String × ManEntry)
deriving DecidableEq

def emptyRmpCache : RmpCache := ⟨[], [], []⟩

/-- Dict lookup. -/
def alGet {α : Type} (k : String) : List (String × α) → Option α
  | [] => none
  | (k', v) :: rest => if k' = k then some v else alGet k rest

/-- Dict assignment `d[k] = v`. -/
def alSet {α : Type} (k : String) (v : α) : List (String × α) → List (String × α)
  | [] => [(k, v)]
  | (k', v') :: rest => if k' = k then (k, v) :: rest else (k', v') :: alSet k v rest

/-- Dict deletion `del d[k]`. -/
def alDel {α : Type} (k : String) (l : List (String × α)) : List (String × α) :=
  l.filter (fun kv => !(kv.1 == k))

/-- `RMP._get_cache_key`: `professor_name.lower().strip()`. -/
def getCacheKey (professorName : String) : String :=
  pyStrip (pyLower professorName)

/-- `RMP._is_cache_valid` (model entries always carry a timestamp). -/
def isCacheValid (timestamp now ttlDays : ℚ) : Prop :=
  (now - timestamp) / (24 * 3600) < ttlDays

instance (timestamp now ttlDays : ℚ) : Decidable (isCacheValid timestamp now ttlDays) :=
  inferInstanceAs (Decidable (_ < _))

/-- The negative-tier step of `RMP._get_cached_result` (2-week TTL). -/
def negativeCheck (cacheKey : String) (now : ℚ) (c : RmpCache) :
    Option (List Cand) × RmpCache :=
  match alGet cacheKey c.negative with
  | some entry =>
    if isCacheValid entry.timestamp now 14 then (some [], c)
    else (none, { c with negative := alDel cacheKey c.negative })
  | none => (none, c)

/-- `RMP._get_cached_result`: manual (never expires) → positive (180-day
TTL, evict on expiry) → negative (14-day TTL, evict on expiry).  Returns
the lookup outcome (`none` = cache miss) and the possibly-evicted cache. -/
def getCachedResult (cache : RmpCache) (now : ℚ) (professorName : String) :
    Option (List Cand) × RmpCache :=
  let cacheKey := getCacheKey professorName
  match alGet cacheKey cache.manual with
  | some entry => (some entry.data, cache)
  | none =>
    match alGet cacheKey cache.positive with
    | some entry =>
      if isCacheValid entry.timestamp now 180 then (some entry.data, cache)
      else negativeCheck cacheKey now { cache with positive := alDel cacheKey cache.positive }
    | none => negativeCheck cacheKey now cache

/-- `RMP._cache_result`: non-empty results go to the positive tier,
empty results to the negative tier (`if result:` is an emptiness test). -/
def cacheResult (cache : RmpCache) (professorName : String) (result : List Cand)
    (now : ℚ) : RmpCache :=
  let cacheKey := getCacheKey professorName
  if !result.isEmpty then
    { cache with positive := alSet cacheKey ⟨result, now⟩ cache.positive }
  else
    { cache with negative := alSet cacheKey ⟨now⟩ cache.negative }

/-- The `rmp_data` dict handed to `_add_manual_cache_entry`
(`dict.get` defaults applied). -/
structure ManualRmpData where
  avgRating : Option ℚ := none
  avgDifficulty : Option ℚ := none
  wouldTakeAgainPercent : Option ℚ := none
  legacyId : Option String := none
  firstName : String := ""
  lastName : String := ""
deriving DecidableEq

/-- `RMP._add_manual_cache_entry`: store an RMP-style candidate under the
manual tier, then remove the key from the negative tier. -/
def addManualCacheEntry (cache : RmpCache) (professorName : String)
    (rmpData : ManualRmpData) (now : ℚ) : RmpCache :=
  let cacheKey := getCacheKey professorName
  let candidateData : List Cand :=
    [⟨⟨rmpData.avgRating, rmpData.avgDifficulty, rmpData.wouldTakeAgainPercent,
       rmpData.legacyId, rmpData.firstName, rmpData.lastName, gtSchoolId⟩⟩]
  let c1 := { cache with
    manual := alSet cacheKey ⟨candidateData, now, "manual"⟩ cache.manual }
  { c1 with negative := alDel cacheKey c1.negative }

/-! ## `RMP._detect_and_merge_duplicates`

`db/Models.py:50-57` maps the `distribution` table: columns `id`,
`class_id` and `instructor_id` (the nullable foreign key to
`professor.id`), plus the `term_dists` relationship.  The merge code
filters on `Distribution.professor_id` (rmp.py:619 and rmp.py:632), an
attribute this mapped class does not define, so the lookup itself raises
`AttributeError` before any query runs; the `except Exception` at
rmp.py:653 then rolls the session back. -/

/-- A `Distribution` row with the columns `db/Models.py:50-57` declares. -/
structure DistRow where
  id : ℕ
  class_id : ℕ
  instructor_id : Option ℕ
deriving DecidableEq

/-- The attributes the mapped `Distribution` class defines (its columns
and the `term_dists` relationship). -/
def distAttrs : List String := ["id", "class_id", "instructor_id", "term_dists"]

/-- Python attribute lookup on the `Distribution` class: `some` for a
declared attribute, `none` for a raised `AttributeError`. -/
def distClassAttr (a : String) : Option String :=
  if distAttrs.contains a then some a else none

/-- Reading a column of a row (`instructor_id` is nullable; the merge code
reaches this only through `distClassAttr`, and only with column names). -/
def distColGet (c : String) (d : DistRow) : Option ℕ :=
  if c = "id" then some d.id
  else if c = "class_id" then some d.class_id
  else d.instructor_id

/-- Writing a column of a row. -/
def distColSet (c : String) (v : ℕ) (d : DistRow) : DistRow :=
  if c = "id" then { d with id := v }
  else if c = "class_id" then { d with class_id := v }
  else { d with instructor_id := some v }

/-- `session.query(Distribution).filter(Distribution.professor_id == pid).count()`
(rmp.py:619): building the filter evaluates `Distribution.professor_id`
first; `none` is the `AttributeError` that lookup raises. -/
def distCountQuery (dists : List DistRow) (pid : ℕ) : Option ℕ :=
  (distClassAttr "professor_id").map (fun c =>
    (dists.filter (fun d => distColGet c d == some pid)).length)

/-- Python truthiness of the `RMP_score` column (`None` and `0.0` falsy). -/
def scoreTruthy : Option ℚ → Bool
  | none => false
  | some q => decide (q ≠ 0)

/-- The `best_prof`/`best_score` loop body (rmp.py:617-624): the count
query runs first, then `score > best_score` with strict improvement
(`best_score` starts at `-1`). -/
def bestProfStep (dists : List DistRow) (acc : Option DBProf × ℤ) (p : DBProf) :
    Except Unit (Option DBProf × ℤ) :=
  match distCountQuery dists p.id with
  | none => Except.error ()
  | some cnt =>
    let score : ℤ := (cnt : ℤ) * 1000 + (10000 - (p.id : ℤ))
    Except.ok (if acc.2 < score then (some p, score) else acc)

def bestProfFold (dists : List DistRow) (group : List DBProf) :
    Except Unit (Option DBProf × ℤ) :=
  group.foldlM (bestProfStep dists) (none, -1)

/-- One iteration of the loser-merge loop (rmp.py:627-647), in source
evaluation order: `prof.id != best_prof.id` (raising when `best_prof` is
`None`), then the loser's distribution query — whose filter again looks
up `Distribution.professor_id` — then repointing, the RMP-data copy on
truthiness, and the delete.  The state is `(best_prof, profs, dists)`. -/
def mergeLoserStep (st : Option DBProf × List DBProf × List DistRow)
    (loser : DBProf) : Except Unit (Option DBProf × List DBProf × List DistRow) :=
  match st.1 with
  | none => Except.error ()
  | some best =>
    if loser.id = best.id then Except.ok st
    else
      match distClassAttr "professor_id" with
      | none => Except.error ()
      | some c =>
        let dists' := st.2.2.map (fun d =>
          if distColGet c d == some loser.id then distColSet c best.id d else d)
        let best' :=
          if scoreTruthy loser.RMP_score && !scoreTruthy best.RMP_score then
            { best with RMP_score := loser.RMP_score, RMP_diff := loser.RMP_diff,
                        RMP_link := loser.RMP_link,
                        RMP_would_take_again := loser.RMP_would_take_again }
          else best
        let profs' := st.2.1.filter (fun p => decide (p.id ≠ loser.id))
        Except.ok (some best', profs', dists')

/-- One duplicate group (rmp.py:608-647): `duplicates_found` increments,
the best-professor loop runs (and raises at its first count query), then
the loser loop; the in-session mutation of the `best_prof` object is
flushed back into the professor list at the end. -/
def mergeGroupStep (group : List DBProf) (st : List DBProf × List DistRow × ℕ) :
    Except Unit (List DBProf × List DistRow × ℕ) :=
  match bestProfFold st.2.1 group with
  | Except.error e => Except.error e
  | Except.ok bp =>
    match group.foldlM mergeLoserStep (bp.1, st.1, st.2.1) with
    | Except.error e => Except.error e
    | Except.ok (some b, profs', dists') =>
      Except.ok (profs'.map (fun p => if p.id = b.id then b else p), dists', st.2.2 + 1)
    | Except.ok (none, profs', dists') => Except.ok (profs', dists', st.2.2 + 1)

/-- The canonical names in first-occurrence order: the keys of the
`canonical_groups` dict built from the snapshot `professors` list. -/
def groupKeys (profs : List DBProf) : List String :=
  profs.foldl (fun ks p =>
    let k := canonicalizeName p.name
    if k ∈ ks then ks else ks ++ [k]) []

/-- The members of one canonical group, in snapshot order. -/
def groupOf (profs : List DBProf) (k : String) : List DBProf :=
  profs.filter (fun p => decide (canonicalizeName p.name = k))

/-- The group loop of `_detect_and_merge_duplicates`: groups come from the
start-of-pass snapshot `profs0`; the session state
`(profs, dists, duplicates_found)` threads through; `Except.error` is a
raised exception escaping the loop. -/
def mergeGroupsAux (profs0 : List DBProf) :
    List String → List DBProf × List DistRow × ℕ →
      Except Unit (List DBProf × List DistRow × ℕ)
  | [], st => Except.ok st
  | k :: ks, st =>
    if 1 < (groupOf profs0 k).length then
      match mergeGroupStep (groupOf profs0 k) st with
      | Except.error e => Except.error e
      | Except.ok st' => mergeGroupsAux profs0 ks st'
    else mergeGroupsAux profs0 ks st

/-- `RMP._detect_and_merge_duplicates` (rmp.py:589-657): the whole body
runs inside one `try`; on a raised exception `except Exception` calls
`session.rollback()`, so the database is exactly the input again. -/
def detectAndMergeDuplicates (profs : List DBProf) (dists : List DistRow) :
    List DBProf × List DistRow :=
  match mergeGroupsAux profs (groupKeys profs) (profs, dists, 0) with
  | Except.ok (ps, ds, _) => (ps, ds)
  | Except.error _ => (profs, dists)

/-! ## `RMP.add_manual_rmp_link` -/

/-- Python `int(s)` for a digit string. -/
def pyInt (s : String) : ℕ :=
  s.toList.foldl (fun a c => a * 10 + (c.toNat - 48)) 0

/-- `RMP.add_manual_rmp_link`: returns the success flag together with the
resulting professor table and cache (unchanged on failure). -/
def addManualRmpLink (profs : List DBProf) (cache : RmpCache)
    (professorName rmpId : String) (now : ℚ) : Bool × List DBProf × RmpCache :=
  match profs.find? (fun p => p.name == professorName) with
  | none => (false, profs, cache)
  | some prof =>
    if !isDigitString rmpId then (false, profs, cache)
    else
      let rmpLink := rmpBaseUrl ++ "/professor/" ++ rmpId
      let parts := splitWsStr prof.name
      let rmpData : ManualRmpData :=
        { legacyId := some (Nat.repr (pyInt rmpId)),
          firstName := parts.headD "",
          lastName := if 1 < parts.length then joinSpStr parts.tail else "" }
      let cache' := addManualCacheEntry cache professorName rmpData now
      let profs' := profs.map (fun p =>
        if p.id = prof.id then { p with RMP_link := some rmpLink } else p)
      (true, profs', cache')

/-- The spec's duplicate-merge example: three professor rows with the same
canonical name owning 0, 3 and 1 distribution rows respectively. -/
def profsEx : List DBProf :=
  [⟨1, "Bob Smith", none, none, none, none⟩,
   ⟨2, "bob smith", none, none, none, none⟩,
   ⟨3, "Bob  Smith", none, none, none, none⟩]

def distsEx : List DistRow :=
  [⟨1, 7, some 2⟩, ⟨2, 7, some 2⟩, ⟨3, 7, some 2⟩, ⟨4, 7, some 3⟩]

/-! ## Theorems -/

theorem toNat_lowerChar (c : Char) :
    (lowerChar c).toNat =
      if 65 ≤ c.toNat ∧ c.toNat ≤ 90 then c.toNat + 32 else c.toNat := by
  unfold lowerChar
  split
  · rename_i h
    have hv : (c.toNat + 32).isValidChar := by
      left
      omega
    rw [Char.ofNat, dif_pos hv]
    rfl
  · rfl

theorem lowerChar_eq_self {c : Char} (h : ¬ (65 ≤ c.toNat ∧ c.toNat ≤ 90)) :
    lowerChar c = c := by
  unfold lowerChar
  exact if_neg h

theorem lowerChar_idem (c : Char) : lowerChar (lowerChar c) = lowerChar c := by
  apply lowerChar_eq_self
  rw [toNat_lowerChar c]
  split <;> omega

theorem isPySpace_lowerChar (c : Char) : isPySpace (lowerChar c) = isPySpace c := by
  simp only [isPySpace, toNat_lowerChar, decide_eq_decide]
  split <;> omega

theorem isWordChar_lowerChar (c : Char) : isWordChar (lowerChar c) = isWordChar c := by
  simp only [isWordChar, toNat_lowerChar, decide_eq_decide]
  split <;> omega

theorem isAsciiAlpha_lowerChar (c : Char) :
    isAsciiAlpha (lowerChar c) = isAsciiAlpha c := by
  simp only [isAsciiAlpha, toNat_lowerChar, decide_eq_decide]
  split <;> omega

example : canonicalizeName " Dr.  Bob   Smith Jr. " = "bob smith" := by decide
example : canonicalizeName "Robert Smith" = "robert smith" := by decide
example : canonicalizeName "Drew" = "ew" := by decide
example : canonicalizeName "drdr" = "dr" := by decide
example : canonicalizeName "Professor Smith" = "essor smith" := by decide
example : canonicalizeName "John Smith III" = "john smith" := by decide
example : canonicalizeName "Andrew Kim" = "andrew kim" := by decide
example : canonicalizeName "Dr.Drew Dray" = "ew ay" := by decide

example : "robert" ∈ nameVariants "Bob" := by decide
example : "rob" ∈ nameVariants "Robert" := by decide

example : lcsLen "bob smith".toList "robert smith".toList = 8 := by decide
example : lcsLen "rob smith".toList "robert smith".toList = 9 := by decide

theorem tokenSortRatio_nonneg (a b : String) : 0 ≤ tokenSortRatio a b := by
  unfold tokenSortRatio simRatio
  split
  · norm_num
  · apply div_nonneg <;> positivity

theorem tokenSortRatio_eval (a b : String) (ta tb : List Char) (n la lb : ℕ)
    (ha : joinSp (sortToks (splitWs a.toList)) = ta)
    (hb : joinSp (sortToks (splitWs b.toList)) = tb)
    (hn : lcsLen ta tb = n) (hla : ta.length = la) (hlb : tb.length = lb)
    (hpos : 0 < la + lb) :
    tokenSortRatio a b = ((2 * n : ℕ) : ℚ) / ((la + lb : ℕ) : ℚ) := by
  unfold tokenSortRatio simRatio
  rw [ha, hb, hn, hla, hlb, if_neg (by omega)]

example : tokenSortRatio "bob smith" "robert smith" = ((16 : ℕ) : ℚ) / ((21 : ℕ) : ℚ) :=
  tokenSortRatio_eval "bob smith" "robert smith" "bob smith".toList
    "robert smith".toList 8 9 12 (by decide) (by decide) (by decide) (by decide)
    (by decide) (by norm_num)

example : resolveProf "Jane Doe" [mkCand "Jane" "Doe", mkCand "Jane" "Doyle"] =
    some (mkCand "Jane" "Doe") := by decide
example : resolveProf "Jane Doe"
    [⟨⟨none, none, none, some "1", "Jane", "Doe", ""⟩⟩,
     ⟨⟨none, none, none, some "2", "Jane", "Doe", ""⟩⟩] = none := by decide
example : enhancedMatchCandidates "Bob Smith" [mkCand "Robert" "Smith"] =
    [mkCand "Robert" "Smith"] := by decide

example : detectAndMergeDuplicates profsEx distsEx = (profsEx, distsEx) := by decide

/-! ## Small helper lemmas -/

theorem strMk_toList (s : String) : String.mk s.toList = s := rfl

theorem alGet_alSet_self {α : Type} (k : String) (v : α) (l : List (String × α)) :
    alGet k (alSet k v l) = some v := by
  induction l with
  | nil => simp [alSet, alGet]
  | cons kv rest ih =>
    by_cases h : kv.1 = k
    · simp [alSet, h, alGet]
    · simp only [alSet, alGet]
      rw [if_neg (by exact h)]
      simpa [alGet, h] using ih

theorem alGet_alDel_self {α : Type} (k : String) (l : List (String × α)) :
    alGet k (alDel k l) = none := by
  induction l with
  | nil => simp [alDel, alGet]
  | cons kv rest ih =>
    by_cases h : kv.1 = k
    · simpa [alDel, h] using ih
    · simpa [alDel, alGet, h] using ih

theorem isCacheValid_iff (ts now ttl : ℚ) :
    isCacheValid ts now ttl ↔ now - ts < ttl * (24 * 3600) := by
  unfold isCacheValid
  rw [div_lt_iff₀ (by norm_num : (0 : ℚ) < 24 * 3600)]

/-- C2: the exact filter decides first: a unique exact survivor is accepted;
two or more exact survivors are ambiguous and rejected with no update. -/
theorem C2_theorem (prof : DBProf) (cands : List Cand) (c : Cand)
    (profs : List DBProf) :
    (exactFilter prof.name cands = [c] → resolveProf prof.name cands = some c) ∧
    (2 ≤ (exactFilter prof.name cands).length →
      resolveProf prof.name cands = none ∧ updateProfByName prof cands profs = profs) := by
  constructor
  · intro h
    simp [resolveProf, h]
  · intro h
    match hE : exactFilter prof.name cands with
    | [] => rw [hE] at h; simp at h
    | [a] => rw [hE] at h; simp at h
    | a :: b :: rest =>
      have hres : resolveProf prof.name cands = none := by
        simp [resolveProf, hE]
      exact ⟨hres, by simp [updateProfByName, hres]⟩

/-- C2 witness: a unique exact match is accepted; two exact matches are
ambiguous and leave the professor table unchanged. -/
theorem C2_witness :
    resolveProf "Jane Doe" [mkCand "Jane" "Doe", mkCand "Jane" "Doyle"] =
      some (mkCand "Jane" "Doe") ∧
    (resolveProf "Jane Doe"
        [⟨⟨none, none, none, some "1", "Jane", "Doe", ""⟩⟩,
         ⟨⟨none, none, none, some "2", "Jane", "Doe", ""⟩⟩] = none ∧
      updateProfByName ⟨1, "Jane Doe", none, none, none, none⟩
        [⟨⟨none, none, none, some "1", "Jane", "Doe", ""⟩⟩,
         ⟨⟨none, none, none, some "2", "Jane", "Doe", ""⟩⟩]
        [⟨1, "Jane Doe", none, none, none, none⟩] =
        [⟨1, "Jane Doe", none, none, none, none⟩]) :=
  ⟨(C2_theorem ⟨1, "Jane Doe", none, none, none, none⟩ _ _ []).1 (by decide),
   (C2_theorem ⟨1, "Jane Doe", none, none, none, none⟩ _ (mkCand "Jane" "Doe") _).2
     (by decide)⟩

/-- C10: with a non-digit character in the id, or no professor of exactly
that name, `add_manual_rmp_link` returns `False` and mutates nothing:
professor table, manual tier and negative tier are returned unchanged. -/
theorem C10_theorem (profs : List DBProf) (cache : RmpCache)
    (name rmpId : String) (now : ℚ)
    (h : (∃ ch ∈ rmpId.toList, isAsciiDigit ch = false) ∨
         (∀ p ∈ profs, p.name ≠ name)) :
    addManualRmpLink profs cache name rmpId now = (false, profs, cache) := by
  unfold addManualRmpLink
  cases hf : profs.find? (fun p => p.name == name) with
  | none => rfl
  | some prof =>
    have hmem : prof ∈ profs := List.mem_of_find?_eq_some hf
    have hname : prof.name = name := by
      have := List.find?_some hf
      simpa [beq_iff_eq] using this
    rcases h with ⟨ch, hch, hdig⟩ | hnone
    · have hds : isDigitString rmpId = false := by
        have hall : rmpId.toList.all isAsciiDigit = false := by
          rw [List.all_eq_false]
          exact ⟨ch, hch, by simp [hdig]⟩
        unfold isDigitString
        rw [hall, Bool.and_false]
      rw [hds]
      simp
    · exact absurd hname (hnone prof hmem)

/-- C10 witness: a malformed id (`"12a"`) for an existing professor returns
`False` and leaves the professor table and cache untouched. -/
theorem C10_witness :
    addManualRmpLink [⟨1, "Jane Doe", none, none, none, none⟩] emptyRmpCache
      "Jane Doe" "12a" 0 = (false, [⟨1, "Jane Doe", none, none, none, none⟩], emptyRmpCache) :=
  C10_theorem _ _ _ _ _ (Or.inl ⟨'a', by decide, by decide⟩)

/-- C6 counterexample: caching an empty result and then a non-empty result
for the same name leaves the key present in the negative AND the positive
tier simultaneously — `_cache_result` never clears the other tier. -/
theorem C6_counterexample :
    (alGet (getCacheKey "Jon Smith")
      (cacheResult (cacheResult emptyRmpCache "Jon Smith" [] 0)
        "Jon Smith" [mkCand "Jon" "Smith"] 1).positive).isSome = true ∧
    (alGet (getCacheKey "Jon Smith")
      (cacheResult (cacheResult emptyRmpCache "Jon Smith" [] 0)
        "Jon Smith" [mkCand "Jon" "Smith"] 1).negative).isSome = true := by
  constructor
  · rfl
  · rfl

/-- C6 amended: `_cache_result` inserts into exactly one tier and never
clears the other, so a key can be live in both positive and negative at
once; only `_add_manual_cache_entry` clears the negative tier. -/
theorem C6_amended (cache : RmpCache) (name : String) (c : Cand)
    (cands : List Cand) (t1 t2 : ℚ) :
    alGet (getCacheKey name)
      (cacheResult (cacheResult cache name [] t1) name (c :: cands) t2).positive =
      some ⟨c :: cands, t2⟩ ∧
    alGet (getCacheKey name)
      (cacheResult (cacheResult cache name [] t1) name (c :: cands) t2).negative =
      some ⟨t1⟩ ∧
    (∀ (d : ManualRmpData) (t3 : ℚ),
      alGet (getCacheKey name)
        (addManualCacheEntry
          (cacheResult (cacheResult cache name [] t1) name (c :: cands) t2)
          name d t3).negative = none) := by
  refine ⟨?_, ?_, ?_⟩
  · simp only [cacheResult, List.isEmpty_nil, List.isEmpty_cons, Bool.not_false,
      Bool.not_true, if_true, if_false]
    exact alGet_alSet_self _ _ _
  · simp only [cacheResult, List.isEmpty_nil, List.isEmpty_cons, Bool.not_false,
      Bool.not_true, if_true, if_false]
    exact alGet_alSet_self _ _ _
  · intro d t3
    simp only [addManualCacheEntry]
    exact alGet_alDel_self _ _

/-- C5 counterexample: `"Dr. Bob Smith"` and `"Bob Smith"` share the same
canonical name, yet a result cached under the first is invisible to a
lookup for the second — the cache key is `lower().strip()`, not the
canonicalized name. -/
theorem C5_counterexample :
    canonicalizeName "Dr. Bob Smith" = canonicalizeName "Bob Smith" ∧
    getCacheKey "Dr. Bob Smith" ≠ getCacheKey "Bob Smith" ∧
    (getCachedResult
      (cacheResult emptyRmpCache "Dr. Bob Smith" [mkCand "Bob" "Smith"] 0)
      0 "Bob Smith").1 = none := by
  refine ⟨by decide, by decide, ?_⟩
  rfl

/-- C5 amended: cache storage and lookup key on `lower().strip()` of the
name (no title/suffix stripping, no interior-whitespace collapsing); two
names with equal lowered-trimmed forms share the same cache entry, and a
lookup for one hits an entry stored under the other. -/
theorem C5_amended (n1 n2 : String) (h : getCacheKey n1 = getCacheKey n2)
    (cache : RmpCache) (v : List Cand) (t t' : ℚ) :
    getCachedResult (cacheResult cache n1 v t) t' n2 =
      getCachedResult (cacheResult cache n1 v t) t' n1 := by
  simp only [getCachedResult]
  rw [h]

/-- C5 witness: `"Bob Smith "` and `"bob smith"` share the lowered-trimmed
key, so the lookup for one equals the lookup for the other. -/
theorem C5_witness :
    getCachedResult (cacheResult emptyRmpCache "Bob Smith " [mkCand "Bob" "Smith"] 0)
      0 "bob smith" =
    getCachedResult (cacheResult emptyRmpCache "Bob Smith " [mkCand "Bob" "Smith"] 0)
      0 "Bob Smith " :=
  C5_amended "Bob Smith " "bob smith" (by decide) emptyRmpCache [mkCand "Bob" "Smith"] 0 0

/-- C4: negative entries (empty result) are served for strictly less than
14 days and report a miss from 14 days on; positive entries (non-empty
result) are served for strictly less than 180 days and report a miss from
180 days on.  The name's key must not be shadowed by another tier. -/
theorem C4_theorem (cache : RmpCache) (name : String) (c : Cand) (t t' : ℚ)
    (hman : alGet (getCacheKey name) cache.manual = none) :
    (alGet (getCacheKey name) cache.positive = none →
      ((t' - t < 14 * 86400 →
         (getCachedResult (cacheResult cache name [] t) t' name).1 = some []) ∧
       (14 * 86400 ≤ t' - t →
         (getCachedResult (cacheResult cache name [] t) t' name).1 = none))) ∧
    (alGet (getCacheKey name) cache.negative = none →
      ((t' - t < 180 * 86400 →
         (getCachedResult (cacheResult cache name [c] t) t' name).1 = some [c]) ∧
       (180 * 86400 ≤ t' - t →
         (getCachedResult (cacheResult cache name [c] t) t' name).1 = none))) := by
  constructor
  · intro hpos
    have hput : cacheResult cache name [] t =
        { cache with negative := alSet (getCacheKey name) ⟨t⟩ cache.negative } := by
      simp [cacheResult]
    constructor
    · intro htt
      rw [hput]
      simp only [getCachedResult, hman, hpos, negativeCheck, alGet_alSet_self]
      rw [if_pos]
      rw [isCacheValid_iff]
      linarith
    · intro htt
      rw [hput]
      simp only [getCachedResult, hman, hpos, negativeCheck, alGet_alSet_self]
      rw [if_neg]
      rw [isCacheValid_iff]
      intro hcon
      linarith
  · intro hneg
    have hput : cacheResult cache name [c] t =
        { cache with positive := alSet (getCacheKey name) ⟨[c], t⟩ cache.positive } := by
      simp [cacheResult]
    constructor
    · intro htt
      rw [hput]
      simp only [getCachedResult, hman, alGet_alSet_self]
      rw [if_pos]
      rw [isCacheValid_iff]
      linarith
    · intro htt
      rw [hput]
      simp only [getCachedResult, hman, alGet_alSet_self]
      rw [if_neg]
      · simp [negativeCheck, hneg]
      · rw [isCacheValid_iff]
        intro hcon
        linarith

/-- C4 witness: from an empty cache, an empty result is an empty list one
day after the put and a miss 14 days after; a one-candidate result is hit
179 days after the put and a miss 200 days after. -/
theorem C4_witness :
    (getCachedResult (cacheResult emptyRmpCache "x" [] 0) 86400 "x").1 = some [] ∧
    (getCachedResult (cacheResult emptyRmpCache "x" [] 0) (14 * 86400) "x").1 = none ∧
    (getCachedResult (cacheResult emptyRmpCache "x" [mkCand "A" "B"] 0)
      (179 * 86400) "x").1 = some [mkCand "A" "B"] ∧
    (getCachedResult (cacheResult emptyRmpCache "x" [mkCand "A" "B"] 0)
      (200 * 86400) "x").1 = none :=
  ⟨((C4_theorem emptyRmpCache "x" (mkCand "A" "B") 0 86400 rfl).1 rfl).1 (by norm_num),
   ((C4_theorem emptyRmpCache "x" (mkCand "A" "B") 0 (14 * 86400) rfl).1 rfl).2 (by norm_num),
   ((C4_theorem emptyRmpCache "x" (mkCand "A" "B") 0 (179 * 86400) rfl).2 rfl).1 (by norm_num),
   ((C4_theorem emptyRmpCache "x" (mkCand "A" "B") 0 (200 * 86400) rfl).2 rfl).2 (by norm_num)⟩

/-- C9 counterexample: a candidate whose would-take-again field is 150
(outside [-1, 100]) is NOT rejected: extraction succeeds, stores the other
fields, and coerces the out-of-range value to null. -/
theorem C9_counterexample :
    validateAndExtractRmpData ⟨some 4, some 3, some 150, some "123", "Jon", "Smith", gtSchoolId⟩ =
      some ⟨4, 3, none, "https://www.ratemyprofessors.com/professor/123"⟩ := by
  decide

/-- C9 amended: with a valid all-digit legacy id and in-range-or-absent
rating/difficulty, extraction always succeeds; absent rating/difficulty
default to 0.0; a present would-take-again value is kept exactly when it
lies in [-1, 100] (so -1 is preserved) and is stored as null otherwise —
an out-of-range value never rejects the candidate. -/
theorem C9_amended (node : CandNode) (lid : String)
    (hlid : node.legacyId = some lid) (hdig : isDigitString lid = true)
    (hr : ∀ r, node.avgRating = some r → 0 ≤ r ∧ r ≤ 5)
    (hd : ∀ d, node.avgDifficulty = some d → 0 ≤ d ∧ d ≤ 5) :
    validateAndExtractRmpData node =
      some ⟨node.avgRating.getD 0, node.avgDifficulty.getD 0,
        (match node.wouldTakeAgainPercent with
         | none => none
         | some w => if -1 ≤ w ∧ w ≤ 100 then some w else none),
        rmpBaseUrl ++ "/professor/" ++ lid⟩ := by
  unfold validateAndExtractRmpData
  rw [hlid]
  simp only [hdig, Bool.not_true, Bool.false_eq_true, if_false]
  cases hA : node.avgRating with
  | none =>
    cases hD : node.avgDifficulty with
    | none => simp
    | some d => simp [hd d hD]
  | some r =>
    cases hD : node.avgDifficulty with
    | none => simp [hr r hA]
    | some d => simp [hr r hA, hd d hD]

/-- C9 witness: a would-take-again of -1 is preserved as -1, and absent
rating/difficulty default to 0.0, for a candidate with legacy id 42. -/
theorem C9_witness :
    validateAndExtractRmpData ⟨none, none, some (-1), some "42", "A", "B", gtSchoolId⟩ =
      some ⟨0, 0, some (-1), "https://www.ratemyprofessors.com/professor/42"⟩ := by
  have h := C9_amended ⟨none, none, some (-1), some "42", "A", "B", gtSchoolId⟩ "42"
    rfl (by decide) (by intro r hr; cases hr) (by intro d hd; cases hd)
  rw [h]
  decide

theorem validateMQ_reject_of_low (t c : String) (s : ℚ)
    (hne : canonicalizeName t ≠ canonicalizeName c)
    (h0 : 0 ≤ s) (hlow : s < 17 / 20) :
    (validateMatchQuality t c s).recommendedAction = "reject" := by
  unfold validateMatchQuality
  rw [if_neg hne]
  dsimp only
  split_ifs <;>
    simp only [decide_eq_true_eq, Bool.and_eq_true, not_and, not_not] at * <;>
    first | rfl | (exfalso; linarith)

theorem validateMQ_conf_lowOnly (t c : String) (s : ℚ)
    (hne : canonicalizeName t ≠ canonicalizeName c)
    (hstruct : (splitWs (canonicalizeName t).toList).length =
      (splitWs (canonicalizeName c).toList).length)
    (hlast : (splitWs (canonicalizeName t).toList).getLast? =
      (splitWs (canonicalizeName c).toList).getLast?)
    (hlow : s < 17 / 20) :
    (validateMatchQuality t c s).confidence = s * (4 / 5) := by
  unfold validateMatchQuality
  rw [if_neg hne]
  dsimp only
  split_ifs <;>
    simp only [decide_eq_true_eq, Bool.and_eq_true, not_and, not_not] at * <;>
    first | rfl | (exfalso; first | linarith | tauto | simp_all)

/-- C1 counterexample: target `"Bob Smith"` against the sole candidate
`{first: "Robert", last: "Smith"}` is a nickname-tier match, but quality
validation starts from the rapidfuzz token-sort score 16/21 (≈ 0.76), not
from 1.0: the low-similarity penalty yields confidence 64/105 (≈ 0.61),
recommendation `"reject"`, and the candidate is not accepted. -/
theorem C1_counterexample :
    resolveProf "Bob Smith" [mkCand "Robert" "Smith"] = none ∧
    (validateMatchQuality "Bob Smith" "Robert Smith"
      (tokenSortRatio (canonicalizeName "Bob Smith")
        (canonicalizeName "Robert Smith"))).confidence = 64 / 105 ∧
    (validateMatchQuality "Bob Smith" "Robert Smith"
      (tokenSortRatio (canonicalizeName "Bob Smith")
        (canonicalizeName "Robert Smith"))).recommendedAction = "reject" := by
  have hs : tokenSortRatio (canonicalizeName "Bob Smith")
      (canonicalizeName "Robert Smith") = 16 / 21 := by
    rw [show canonicalizeName "Bob Smith" = "bob smith" from by decide,
      show canonicalizeName "Robert Smith" = "robert smith" from by decide]
    rw [tokenSortRatio_eval "bob smith" "robert smith" "bob smith".toList
      "robert smith".toList 8 9 12 (by decide) (by decide) (by decide) (by decide)
      (by decide) (by norm_num)]
    norm_num
  have hlow : (16 / 21 : ℚ) < 17 / 20 := by norm_num
  have hact : (validateMatchQuality "Bob Smith" "Robert Smith"
      (tokenSortRatio (canonicalizeName "Bob Smith")
        (canonicalizeName "Robert Smith"))).recommendedAction = "reject" := by
    rw [hs]
    exact validateMQ_reject_of_low _ _ _ (by decide) (by norm_num) hlow
  refine ⟨?_, ?_, hact⟩
  · have hexact : exactFilter "Bob Smith" [mkCand "Robert" "Smith"] = [] := by decide
    have henh : enhancedMatchCandidates "Bob Smith" [mkCand "Robert" "Smith"] =
        [mkCand "Robert" "Smith"] := by decide
    unfold resolveProf
    rw [hexact, henh]
    simp only [List.isEmpty_nil, Bool.not_true, Bool.false_eq_true, if_false]
    rw [show (mkCand "Robert" "Smith").node.firstName ++ " " ++
        (mkCand "Robert" "Smith").node.lastName = "Robert Smith" from rfl]
    rw [if_neg (by rw [hact]; decide)]
  · rw [hs]
    rw [validateMQ_conf_lowOnly _ _ _ (by decide) (by decide) (by decide) hlow]
    norm_num

/-- C1 amended: for a sole candidate matched by the nickname tier (first
token's variant set contains the candidate's canonical first name, rest
equals the canonical last name), quality validation starts from the
rapidfuzz token-sort score of the two canonicalized names rather than from
1.0; whenever the canonical names differ and that score is below 0.85, the
low-similarity penalty drives confidence below 0.75, the recommendation is
`"reject"`, and the candidate is not accepted. -/
theorem C1_amended (target : String) (c : Cand)
    (hexact : pyStrip (c.node.firstName ++ " " ++ c.node.lastName) ≠ target)
    (hparts : 2 ≤ (splitWsStr target).length)
    (hfirst : canonicalizeName c.node.firstName ∈
      nameVariants ((splitWsStr target).headD ""))
    (hlast : canonicalizeName c.node.lastName =
      canonicalizeName (joinSpStr (splitWsStr target).tail))
    (hne : canonicalizeName target ≠
      canonicalizeName (c.node.firstName ++ " " ++ c.node.lastName))
    (hlow : tokenSortRatio (canonicalizeName target)
      (canonicalizeName (c.node.firstName ++ " " ++ c.node.lastName)) < 17 / 20) :
    resolveProf target [c] = none ∧
    (validateMatchQuality target (c.node.firstName ++ " " ++ c.node.lastName)
      (tokenSortRatio (canonicalizeName target)
        (canonicalizeName (c.node.firstName ++ " " ++ c.node.lastName)))).recommendedAction =
      "reject" := by
  have hact : (validateMatchQuality target
      (c.node.firstName ++ " " ++ c.node.lastName)
      (tokenSortRatio (canonicalizeName target)
        (canonicalizeName (c.node.firstName ++ " " ++ c.node.lastName)))).recommendedAction =
      "reject" :=
    validateMQ_reject_of_low _ _ _ hne (tokenSortRatio_nonneg _ _) hlow
  refine ⟨?_, hact⟩
  have h1 : exactFilter target [c] = [] := by
    have hpred : (pyStrip (c.node.firstName ++ " " ++ c.node.lastName) == target) = false :=
      beq_eq_false_iff_ne.mpr hexact
    simp [exactFilter, hpred]
  have hnl : ¬ ((splitWsStr target).length < 2) := by omega
  have h2 : enhancedMatchCandidates target [c] = [c] := by
    have hfirst' := hfirst
    simp only [List.headD_eq_head?_getD] at hfirst'
    simp [enhancedMatchCandidates, hnl, hfirst', hlast]
  unfold resolveProf
  rw [h1, h2]
  simp only [List.isEmpty_nil, Bool.not_true, Bool.false_eq_true, if_false]
  rw [if_neg (by rw [hact]; decide)]

/-- C1 witness: the `"Bob Smith"` / `{Robert, Smith}` instance of the
amended claim. -/
theorem C1_witness :
    resolveProf "Bob Smith" [mkCand "Robert" "Smith"] = none ∧
    (validateMatchQuality "Bob Smith"
      ((mkCand "Robert" "Smith").node.firstName ++ " " ++
        (mkCand "Robert" "Smith").node.lastName)
      (tokenSortRatio (canonicalizeName "Bob Smith")
        (canonicalizeName ((mkCand "Robert" "Smith").node.firstName ++ " " ++
          (mkCand "Robert" "Smith").node.lastName)))).recommendedAction = "reject" := by
  apply C1_amended "Bob Smith" (mkCand "Robert" "Smith") (by decide) (by decide)
    (by decide) (by decide) (by decide)
  rw [show canonicalizeName "Bob Smith" = "bob smith" from by decide,
    show canonicalizeName ((mkCand "Robert" "Smith").node.firstName ++ " " ++
      (mkCand "Robert" "Smith").node.lastName) = "robert smith" from by decide]
  rw [tokenSortRatio_eval "bob smith" "robert smith" "bob smith".toList
    "robert smith".toList 8 9 12 (by decide) (by decide) (by decide) (by decide)
    (by decide) (by norm_num)]
  norm_num

/-! ## Lemmas about `splitWs` / `joinSp` / `normWS` -/

theorem splitWsAux_nonspace (l : List Char) :
    ∀ acc, (∀ ch ∈ l, isPySpace ch = false) →
      splitWsAux l acc = if (acc.reverse ++ l).isEmpty then [] else [acc.reverse ++ l] := by
  induction l with
  | nil =>
    intro acc _
    simp [splitWsAux, List.isEmpty_iff]
  | cons c cs ih =>
    intro acc h
    have hc : isPySpace c = false := h c (List.mem_cons_self c cs)
    rw [splitWsAux, if_neg (by simp [hc])]
    rw [ih (c :: acc) (fun ch hch => h ch (List.mem_cons_of_mem c hch))]
    have : (c :: acc).reverse ++ cs = acc.reverse ++ c :: cs := by simp
    rw [this]

theorem splitWs_nonspace (l : List Char) (h : ∀ ch ∈ l, isPySpace ch = false)
    (hne : l ≠ []) : splitWs l = [l] := by
  unfold splitWs
  rw [splitWsAux_nonspace l [] h]
  simp [List.isEmpty_iff, hne]

theorem normWS_nonspace (l : List Char) (h : ∀ ch ∈ l, isPySpace ch = false) :
    normWS l = l := by
  cases hl : l with
  | nil => rfl
  | cons c cs =>
    unfold normWS
    rw [← hl, splitWs_nonspace l h (by rw [hl]; simp)]
    rfl

theorem splitWsAux_word_run (w : List Char) :
    ∀ (rest acc : List Char), (∀ ch ∈ w, isPySpace ch = false) →
      splitWsAux (w ++ rest) acc = splitWsAux rest (w.reverse ++ acc) := by
  induction w with
  | nil => intro rest acc _; simp
  | cons c w' ih =>
    intro rest acc h
    have hc : isPySpace c = false := h c (List.mem_cons_self c w')
    rw [List.cons_append, splitWsAux, if_neg (by simp [hc])]
    rw [ih rest (c :: acc) (fun ch hch => h ch (List.mem_cons_of_mem c hch))]
    congr 1
    simp

theorem splitWsAux_space_cons (rest acc : List Char) :
    splitWsAux (' ' :: rest) acc =
      if acc.isEmpty then splitWsAux rest [] else acc.reverse :: splitWsAux rest [] := by
  rw [splitWsAux]
  rw [if_pos (by decide)]

theorem splitWsAux_words (l : List Char) :
    ∀ acc, (∀ ch ∈ acc, isPySpace ch = false) →
      ∀ w ∈ splitWsAux l acc, w ≠ [] ∧ ∀ ch ∈ w, isPySpace ch = false := by
  induction l with
  | nil =>
    intro acc hacc w hw
    rw [splitWsAux] at hw
    split at hw
    · cases hw
    · rename_i hne
      rw [List.mem_singleton] at hw
      subst hw
      refine ⟨by simpa [List.isEmpty_iff] using hne, ?_⟩
      intro ch hch
      exact hacc ch (List.mem_reverse.mp hch)
  | cons c cs ih =>
    intro acc hacc w hw
    rw [splitWsAux] at hw
    by_cases hc : isPySpace c = true
    · rw [if_pos hc] at hw
      by_cases hae : acc.isEmpty
      · rw [if_pos hae] at hw
        exact ih [] (by intro ch hch; cases hch) w hw
      · rw [if_neg hae] at hw
        rw [List.mem_cons] at hw
        rcases hw with hw | hw
        · subst hw
          refine ⟨by simpa [List.isEmpty_iff] using hae, ?_⟩
          intro ch hch
          exact hacc ch (List.mem_reverse.mp hch)
        · exact ih [] (by intro ch hch; cases hch) w hw
    · rw [if_neg hc] at hw
      refine ih (c :: acc) ?_ w hw
      intro ch hch
      rw [List.mem_cons] at hch
      rcases hch with rfl | hch
      · simpa using hc
      · exact hacc ch hch

theorem splitWs_joinSp (ws : List (List Char))
    (h : ∀ w ∈ ws, w ≠ [] ∧ ∀ ch ∈ w, isPySpace ch = false) :
    splitWs (joinSp ws) = ws := by
  induction ws with
  | nil => rfl
  | cons w ws' ih =>
    cases ws' with
    | nil =>
      have hw := h w (List.mem_cons_self w [])
      exact splitWs_nonspace w hw.2 hw.1
    | cons w' t =>
      have hw := h w (List.mem_cons_self w _)
      show splitWsAux (w ++ ' ' :: joinSp (w' :: t)) [] = w :: w' :: t
      rw [splitWsAux_word_run w (' ' :: joinSp (w' :: t)) [] hw.2]
      rw [splitWsAux_space_cons]
      rw [if_neg (by simp [List.isEmpty_iff, hw.1])]
      have : splitWsAux (joinSp (w' :: t)) [] = w' :: t :=
        ih (fun x hx => h x (List.mem_cons_of_mem w hx))
      rw [this]
      simp [hw.1]

theorem normWS_idem (l : List Char) : normWS (normWS l) = normWS l := by
  show normWS (joinSp (splitWs l)) = normWS l
  unfold normWS
  rw [splitWs_joinSp (splitWs l) (splitWsAux_words l [] (by intro ch hch; cases hch))]

theorem splitWsAux_map_lower (l : List Char) :
    ∀ acc, splitWsAux (l.map lowerChar) (acc.map lowerChar) =
      (splitWsAux l acc).map (List.map lowerChar) := by
  induction l with
  | nil =>
    intro acc
    simp only [List.map_nil, splitWsAux]
    by_cases h : acc.isEmpty
    · rw [if_pos (by simpa using h), if_pos h]
      rfl
    · rw [if_neg (by simpa using h), if_neg h]
      simp
  | cons c cs ih =>
    intro acc
    simp only [List.map_cons, splitWsAux, isPySpace_lowerChar]
    by_cases hc : isPySpace c = true
    · rw [if_pos hc, if_pos hc]
      by_cases hae : acc.isEmpty
      · rw [if_pos (by simpa using hae), if_pos hae]
        simpa using ih []
      · rw [if_neg (by simpa using hae), if_neg hae]
        have := ih []
        simp only [List.map_nil] at this
        simp [this]
    · rw [if_neg hc, if_neg hc]
      exact ih (c :: acc)

theorem splitWs_map_lower (l : List Char) :
    splitWs (l.map lowerChar) = (splitWs l).map (List.map lowerChar) := by
  have := splitWsAux_map_lower l []
  simpa [splitWs] using this

theorem joinSp_map_lower (ws : List (List Char)) :
    joinSp (ws.map (List.map lowerChar)) = (joinSp ws).map lowerChar := by
  induction ws with
  | nil => rfl
  | cons w ws' ih =>
    cases ws' with
    | nil => rfl
    | cons w' t =>
      show List.map lowerChar w ++ ' ' :: joinSp ((w' :: t).map (List.map lowerChar)) = _
      rw [ih]
      show _ = (w ++ ' ' :: joinSp (w' :: t)).map lowerChar
      rw [List.map_append]
      rfl

theorem normWS_map_lower (l : List Char) :
    normWS (l.map lowerChar) = (normWS l).map lowerChar := by
  unfold normWS
  rw [splitWs_map_lower, joinSp_map_lower]

theorem map_lowerChar_idem (l : List Char) :
    (l.map lowerChar).map lowerChar = l.map lowerChar := by
  rw [List.map_map]
  exact List.map_congr_left (fun c _ => lowerChar_idem c)

theorem canonicalizeName_eq (x : String) (hx : x ≠ "") :
    canonicalizeName x =
      String.mk ((normWS (suffixSub (titleSub (normWS x.toList)))).map lowerChar) := by
  unfold canonicalizeName
  rw [if_neg hx]

/-- C7 counterexample: canonicalization is not idempotent.  For `"drdr"`
the first pass removes only the leading `"dr"` (the second occurrence sits
inside a word, where `\b` fails), producing `"dr"`, and a second pass
removes that too, producing `""`. -/
theorem C7_counterexample :
    canonicalizeName "drdr" = "dr" ∧ canonicalizeName "dr" = "" ∧
    canonicalizeName (canonicalizeName "drdr") ≠ canonicalizeName "drdr" := by
  decide

/-- C7 amended: a second canonicalization pass changes nothing exactly when
the first pass's output is itself free of title/suffix regex matches; it
can differ otherwise (title removal may expose a new title occurrence, as
in `"drdr"` → `"dr"` → `""`). -/
theorem C7_amended (x : String)
    (ht : titleSub (canonicalizeName x).toList = (canonicalizeName x).toList)
    (hs : suffixSub (canonicalizeName x).toList = (canonicalizeName x).toList) :
    canonicalizeName (canonicalizeName x) = canonicalizeName x := by
  by_cases hy : canonicalizeName x = ""
  · rw [hy]
    rfl
  · by_cases hx : x = ""
    · rw [hx] at hy
      exact absurd rfl hy
    · have hshape := canonicalizeName_eq x hx
      set n3 := suffixSub (titleSub (normWS x.toList)) with hn3
      have hz : (canonicalizeName x).toList = (normWS n3).map lowerChar := by
        rw [hshape]
        rfl
      have hnorm : normWS ((canonicalizeName x).toList) = (canonicalizeName x).toList := by
        rw [hz, ← normWS_map_lower, normWS_idem, normWS_map_lower]
      rw [canonicalizeName_eq (canonicalizeName x) hy]
      rw [hnorm, ht, hs, hnorm]
      rw [hz, map_lowerChar_idem, ← hz]
      exact strMk_toList _

/-- C7 witness: `"Dr. Bob Smith"` canonicalizes to `"bob smith"`, which is
a fixed point of both regex passes, so a second canonicalization keeps it. -/
theorem C7_witness :
    canonicalizeName (canonicalizeName "Dr. Bob Smith") = canonicalizeName "Dr. Bob Smith" :=
  C7_amended "Dr. Bob Smith" (by decide) (by decide)

theorem isWordChar_of_alpha {c : Char} (h : isAsciiAlpha c = true) :
    isWordChar c = true := by
  simp only [isAsciiAlpha, decide_eq_true_eq] at h
  simp only [isWordChar, decide_eq_true_eq]
  omega

theorem isPySpace_false_of_alpha {c : Char} (h : isAsciiAlpha c = true) :
    isPySpace c = false := by
  simp only [isAsciiAlpha, decide_eq_true_eq] at h
  simp only [isPySpace, decide_eq_false_iff_not]
  omega

theorem alpha_ne_dot {c : Char} (h : isAsciiAlpha c = true) : c ≠ '.' := by
  intro hc
  subst hc
  simp [isAsciiAlpha] at h

theorem titleSubFuel_allword (fuel : Nat) :
    ∀ l : List Char, l.all isWordChar = true → titleSubFuel fuel l false = l := by
  induction fuel with
  | zero => intro l _; rfl
  | succ fuel ih =>
    intro l hl
    cases l with
    | nil => rfl
    | cons c cs =>
      rw [List.all_cons, Bool.and_eq_true] at hl
      rw [titleSubFuel, if_neg (by simp)]
      rw [hl.1]
      simp only [Bool.not_true]
      rw [ih cs hl.2]

theorem suffixTryWord_false_of_alpha (low w : List Char)
    (h : low.all isAsciiAlpha = true) : suffixTryWord low w = false := by
  unfold suffixTryWord
  cases hidx : low.get? (low.length - w.length - 1) with
  | none => simp [hidx]
  | some ch =>
    have hch : isAsciiAlpha ch = true := by
      rw [List.all_eq_true] at h
      exact h ch (List.get?_mem hidx)
    simp [hidx, isPySpace_false_of_alpha hch]

theorem suffixSub_all_alpha (l : List Char) (h : l.all isAsciiAlpha = true) :
    suffixSub l = l := by
  unfold suffixSub
  have hlow : (l.map lowerChar).all isAsciiAlpha = true := by
    rw [List.all_map]
    rw [List.all_eq_true] at h ⊢
    intro c hc
    rw [Function.comp_apply, isAsciiAlpha_lowerChar]
    exact h c hc
  have hfind : suffixWords.find? (fun w => suffixTryWord (List.map lowerChar
      (if (l.getLast? == some '.') = true then l.dropLast else l)) w) = none := by
    rw [List.find?_eq_none]
    intro w _
    by_cases hdot : (l.getLast? == some '.') = true
    · rw [if_pos hdot]
      have hlow2 : ((l.map lowerChar).dropLast).all isAsciiAlpha = true := by
        rw [List.all_eq_true] at hlow ⊢
        intro c hc
        exact hlow c (List.dropLast_subset _ hc)
      rw [List.map_dropLast]
      simp [suffixTryWord_false_of_alpha _ w hlow2]
    · rw [if_neg hdot]
      simp [suffixTryWord_false_of_alpha _ w hlow]

  simp only [hfind]

/-- C8 counterexample: the title regex is word-boundary-, not prefix-, and
not whole-word-anchored: `"Drew"` loses its leading `"Dr"` and
canonicalizes to `"ew"`, not `"drew"`. -/
theorem C8_counterexample :
    canonicalizeName "Drew" = "ew" ∧ canonicalizeName "Drew" ≠ "drew" := by
  decide

/-- C8 amended: title strings are removed wherever a word starts with them
(case-insensitively), not only as a whole leading title: any all-letter
single-word name beginning with `d`,`r` — such as `"Drew"` or `"Drake"` —
has those two characters removed and the remainder lowercased. -/
theorem C8_amended (w : String) (c d : Char) (rest : List Char)
    (hw : w.toList = c :: d :: rest)
    (halpha : (c :: d :: rest).all isAsciiAlpha = true)
    (hc : lowerChar c = 'd') (hd : lowerChar d = 'r') :
    canonicalizeName w = String.mk (rest.map lowerChar) := by
  have hne : w ≠ "" := by
    intro h
    rw [h] at hw
    cases hw
  rw [List.all_cons, Bool.and_eq_true] at halpha
  obtain ⟨hca, halpha⟩ := halpha
  rw [List.all_cons, Bool.and_eq_true] at halpha
  obtain ⟨hda, hresta⟩ := halpha
  have hrest_nonspace : ∀ ch ∈ rest, isPySpace ch = false := by
    intro ch hch
    rw [List.all_eq_true] at hresta
    exact isPySpace_false_of_alpha (hresta ch hch)
  have hall_nonspace : ∀ ch ∈ c :: d :: rest, isPySpace ch = false := by
    intro ch hch
    rw [List.mem_cons] at hch
    rcases hch with rfl | hch
    · exact isPySpace_false_of_alpha hca
    · rw [List.mem_cons] at hch
      rcases hch with rfl | hch
      · exact isPySpace_false_of_alpha hda
      · exact hrest_nonspace ch hch
  have htry : titleTry (c :: d :: rest) = some rest := by
    simp [titleTry, tryCI, hc, hd]
  have hdot : (rest.head? == some '.') = false := by
    cases hr : rest with
    | nil => rfl
    | cons r rs =>
      rw [List.all_eq_true] at hresta
      have : r ≠ '.' := alpha_ne_dot (hresta r (by rw [hr]; exact List.mem_cons_self r rs))
      simp [this]
  have hdw : rest.dropWhile isPySpace = rest := by
    cases hr : rest with
    | nil => rfl
    | cons r rs =>
      rw [List.dropWhile_cons]
      rw [hrest_nonspace r (by rw [hr]; exact List.mem_cons_self r rs)]
      simp
  have hword : rest.all isWordChar = true := by
    rw [List.all_eq_true] at hresta ⊢
    intro ch hch
    exact isWordChar_of_alpha (hresta ch hch)
  have htitle : titleSub (c :: d :: rest) = rest := by
    unfold titleSub
    rw [List.length_cons, titleSubFuel]
    simp only [if_true, htry, hdot, Bool.false_eq_true, if_false, hdw,
      beq_self_eq_true, Bool.not_true, Bool.or_false]
    exact titleSubFuel_allword _ rest hword
  rw [canonicalizeName_eq w hne, hw]
  rw [normWS_nonspace _ hall_nonspace, htitle, suffixSub_all_alpha rest hresta,
    normWS_nonspace rest hrest_nonspace]

/-- C8 witness: `"Drake"` canonicalizes to `"ake"`. -/
theorem C8_witness : canonicalizeName "Drake" = "ake" := by
  rw [C8_amended "Drake" 'D' 'r' ['a', 'k', 'e'] rfl (by decide) (by decide) (by decide)]
  decide

/-! ## Lemmas about canonical grouping -/

theorem groupKeysAux_mem (x : String) :
    ∀ (l : List DBProf) (acc : List String),
      (x ∈ l.foldl (fun ks p =>
        let k := canonicalizeName p.name
        if k ∈ ks then ks else ks ++ [k]) acc) ↔
      (x ∈ acc ∨ ∃ p ∈ l, canonicalizeName p.name = x) := by
  intro l
  induction l with
  | nil => intro acc; simp
  | cons p ps ih =>
    intro acc
    rw [List.foldl_cons]
    by_cases hk : canonicalizeName p.name ∈ acc
    · simp only [hk, if_pos]
      rw [ih acc]
      constructor
      · rintro (h | h)
        · exact Or.inl h
        · exact Or.inr (by obtain ⟨q, hq, hq2⟩ := h; exact ⟨q, List.mem_cons_of_mem p hq, hq2⟩)
      · rintro (h | ⟨q, hq, hq2⟩)
        · exact Or.inl h
        · rw [List.mem_cons] at hq
          rcases hq with rfl | hq
          · exact Or.inl (by rw [hq2] at hk; exact hk)
          · exact Or.inr ⟨q, hq, hq2⟩
    · simp only [hk, if_neg, if_false]
      rw [ih (acc ++ [canonicalizeName p.name])]
      constructor
      · rintro (h | h)
        · rw [List.mem_append, List.mem_singleton] at h
          rcases h with h | h
          · exact Or.inl h
          · exact Or.inr ⟨p, List.mem_cons_self p ps, h.symm⟩
        · exact Or.inr (by obtain ⟨q, hq, hq2⟩ := h; exact ⟨q, List.mem_cons_of_mem p hq, hq2⟩)
      · rintro (h | ⟨q, hq, hq2⟩)
        · exact Or.inl (List.mem_append_left _ h)
        · rw [List.mem_cons] at hq
          rcases hq with rfl | hq
          · exact Or.inl (List.mem_append_right _ (by rw [hq2]; exact List.mem_singleton.mpr rfl))
          · exact Or.inr ⟨q, hq, hq2⟩

theorem mem_groupKeys {profs : List DBProf} {p : DBProf} (hp : p ∈ profs) :
    canonicalizeName p.name ∈ groupKeys profs := by
  unfold groupKeys
  rw [groupKeysAux_mem]
  exact Or.inr ⟨p, hp, rfl⟩

theorem groupKeys_mem_canonical {profs : List DBProf} {k : String}
    (hk : k ∈ groupKeys profs) : ∃ p ∈ profs, canonicalizeName p.name = k := by
  unfold groupKeys at hk
  rw [groupKeysAux_mem] at hk
  rcases hk with hk | hk
  · cases hk
  · exact hk

theorem groupKeysAux_nodup :
    ∀ (l : List DBProf) (acc : List String), acc.Nodup →
      (l.foldl (fun ks p =>
        let k := canonicalizeName p.name
        if k ∈ ks then ks else ks ++ [k]) acc).Nodup := by
  intro l
  induction l with
  | nil => intro acc h; exact h
  | cons p ps ih =>
    intro acc h
    rw [List.foldl_cons]
    by_cases hk : canonicalizeName p.name ∈ acc
    · simp only [hk, if_pos]
      exact ih acc h
    · simp only [hk, if_neg, if_false]
      apply ih
      rw [List.nodup_append]
      exact ⟨h, List.nodup_singleton _, by
        intro a ha hb
        rw [List.mem_singleton] at hb
        subst hb
        exact hk ha⟩

theorem groupKeys_nodup (profs : List DBProf) : (groupKeys profs).Nodup :=
  groupKeysAux_nodup profs [] List.nodup_nil

theorem mem_groupOf {profs : List DBProf} {k : String} {p : DBProf} :
    p ∈ groupOf profs k ↔ p ∈ profs ∧ canonicalizeName p.name = k := by
  unfold groupOf
  rw [List.mem_filter]
  simp

theorem groupOf_disjoint {profs : List DBProf} {k1 k2 : String}
    (hnd : (profs.map (fun p => p.id)).Nodup) (hne : k1 ≠ k2)
    {p q : DBProf} (hp : p ∈ groupOf profs k1) (hq : q ∈ groupOf profs k2) :
    p.id ≠ q.id := by
  rw [mem_groupOf] at hp hq
  intro hid
  have : p = q := List.inj_on_of_nodup_map hnd hp.1 hq.1 hid
  subst this
  rw [hp.2] at hq
  exact hne hq.2

theorem groupOf_ids_nodup {profs : List DBProf} {k : String}
    (hnd : (profs.map (fun p => p.id)).Nodup) :
    ((groupOf profs k).map (fun p => p.id)).Nodup := by
  unfold groupOf
  exact (List.Sublist.map _ (List.filter_sublist _)).nodup hnd

/-! ## The merge pass can never run: `Distribution.professor_id` does not exist -/

theorem distClassAttr_professor_id : distClassAttr "professor_id" = none := by
  decide

theorem bestProfFold_err (dists : List DistRow) (p : DBProf) (rest : List DBProf) :
    bestProfFold dists (p :: rest) = Except.error () := by
  have h1 : bestProfStep dists ((none : Option DBProf), (-1 : ℤ)) p = Except.error () := by
    simp [bestProfStep, distCountQuery, distClassAttr_professor_id]
  simp only [bestProfFold, List.foldlM_cons, h1]
  rfl

theorem mergeGroupStep_err (p : DBProf) (rest : List DBProf)
    (st : List DBProf × List DistRow × ℕ) :
    mergeGroupStep (p :: rest) st = Except.error () := by
  simp only [mergeGroupStep, bestProfFold_err]

theorem mergeGroupsAux_ok (profs0 : List DBProf) :
    ∀ (ks : List String) (st r : List DBProf × List DistRow × ℕ),
      mergeGroupsAux profs0 ks st = Except.ok r → r = st := by
  intro ks
  induction ks with
  | nil =>
    intro st r h
    simp only [mergeGroupsAux, Except.ok.injEq] at h
    exact h.symm
  | cons k ks ih =>
    intro st r h
    simp only [mergeGroupsAux] at h
    by_cases hg : 1 < (groupOf profs0 k).length
    · rw [if_pos hg] at h
      obtain ⟨p, rest, hpr⟩ : ∃ p rest, groupOf profs0 k = p :: rest := by
        cases hG : groupOf profs0 k with
        | nil => rw [hG] at hg; simp at hg
        | cons p rest => exact ⟨p, rest, rfl⟩
      rw [hpr, mergeGroupStep_err] at h
      simp at h
    · rw [if_neg hg] at h
      exact ih st r h

/-- C3 (code_bug): the duplicate-merge pass never performs the merge the
claim describes.  Its first distribution count (rmp.py:619) filters on
`Distribution.professor_id`, an attribute the mapped class does not define
(the column is `instructor_id`, db/Models.py:54); the lookup raises before
any merge work, the `except` clause at rmp.py:653 rolls the session back,
and for every input the database is returned unchanged: no survivor is
chosen, no distribution relation is repointed, no record is deleted. -/
theorem C3_theorem (profs : List DBProf) (dists : List DistRow) :
    detectAndMergeDuplicates profs dists = (profs, dists) := by
  cases h : mergeGroupsAux profs (groupKeys profs) (profs, dists, 0) with
  | error e =>
    unfold detectAndMergeDuplicates
    rw [h]
  | ok st =>
    have hst := mergeGroupsAux_ok profs (groupKeys profs) (profs, dists, 0) st h
    unfold detectAndMergeDuplicates
    rw [h, hst]

/-- C3: on the spec's own example — a duplicate group of three records
owning {0, 3, 1} distribution relations — the pass deletes nothing and
repoints nothing: all three professor rows and all four distribution rows
come back unchanged, contradicting the claimed merge outcome. -/
theorem C3_counterexample :
    1 < (groupOf profsEx "bob smith").length ∧
    (distsEx.filter (fun d => d.instructor_id == some 2)).length = 3 ∧
    (distsEx.filter (fun d => d.instructor_id == some 3)).length = 1 ∧
    detectAndMergeDuplicates profsEx distsEx = (profsEx, distsEx) := by
  decide

